import Mathlib

/-!
A verification development for the emerald-wallet-state store.

Each Rust function named in the claims is embedded as an executable Lean
definition translated from the source:

* `src/access/transactions_merge.rs` — the transaction merge
  (`Transaction.merge`, `merge_changes`, `merge_changes_transfer`,
  `only_change_type`);
* `src/storage/indexing.rs` — the index encodings (`IndexConvert`);
* `src/storage/trigrams.rs` — the n-gram extractor (`Trigram`);
* `src/access/transactions.rs` — the transaction filter (`Filter.check_filter`);
* `src/storage/transaction_store.rs` — transaction metadata writes
  (`set_tx_meta`);
* `src/access/balance.rs` / `src/storage/balance_store.rs` — the balance list
  (`concat`, `BalanceAccess.set`);
* `src/access/addressbook.rs` / `src/storage/adressbook_store.rs` — the
  address-book operations and their validation pipeline.

Machine integers (`u32`, `u64`) are `Nat` with an explicit `% 2 ^ 64` where the
source can wrap.  Protobuf record types (`Transaction`, `Change`,
`TransactionMeta`, `BookItem`, …) are structures holding the named fields the
code reads and writes; serialisation is treated as the identity.  The sled tree
is an association list.  External crates (uuid, bitcoin, emerald-vault) are
oracle parameters where their exact behaviour does not decide a claim.
-/

/-! ### Transaction data model (spec section 3, `transactions.proto`)

The generated protobuf module is not among the sources; the field list follows
the code's reads/writes and the spec's data model.  `change_type` has the two
variants the spec names (TRANSFER, FEE). -/

inductive Change_ChangeType where
  | TRANSFER
  | FEE
  deriving DecidableEq, Repr

inductive Direction where
  | EARN
  | SPEND
  deriving DecidableEq, Repr

structure Change where
  wallet_id : String
  entry_id : Nat
  address : String
  amount : String
  asset : String
  direction : Direction
  change_type : Change_ChangeType
  deriving DecidableEq, Repr

structure Transaction where
  blockchain : Nat
  tx_id : String
  state : Nat
  since_timestamp : Nat
  confirm_timestamp : Nat
  block_pos : Nat
  changes : List Change
  deriving DecidableEq, Repr

/-! ### The merge (`src/access/transactions_merge.rs`) -/

/-- `Change::is_similar_to` (transactions_merge.rs line 43). -/
def Change.is_similar_to (self another : Change) : Bool :=
  self.amount == another.amount && self.direction == another.direction
    && self.asset == another.asset && self.address == another.address

/-- `Change::merge` (transactions_merge.rs line 47): fields come from the
update, but an empty `wallet_id` keeps the stored `wallet_id`/`entry_id`. -/
def Change.merge (self update : Change) : Change :=
  if update.wallet_id = "" then
    { update with wallet_id := self.wallet_id, entry_id := self.entry_id }
  else
    update

inductive ChangeMerge where
  | OLD (v : Change)
  | NEW (v : Change)
  | SAME (a b : Change)
  deriving DecidableEq, Repr

/-- `ChangeMerge::merge` (transactions_merge.rs line 64). -/
def ChangeMerge.merge : ChangeMerge → Change
  | .OLD v => v
  | .NEW v => v
  | .SAME a b => a.merge b

/-- `right_pool.iter().position(|a| x.is_similar_to(a))` followed by
`right_pool.remove(position)`: the first similar element and the pool without
it (transactions_merge.rs lines 114-119). -/
def removeFirstSimilar (x : Change) : List Change → Option (Change × List Change)
  | [] => none
  | y :: ys =>
    if x.is_similar_to y then some (y, ys)
    else
      match removeFirstSimilar x ys with
      | some (a, rest) => some (a, y :: rest)
      | none => none

/-- `merge_changes_transfer` (transactions_merge.rs lines 108-133): pair each
stored change with the first similar proposed change, mark unmatched stored
ones OLD, and append the remaining proposed ones as NEW. -/
def merge_changes_transfer : List Change → List Change → List ChangeMerge
  | [], right => right.map ChangeMerge.NEW
  | x :: xs, right =>
    match removeFirstSimilar x right with
    | some (a, rest) => ChangeMerge.SAME x a :: merge_changes_transfer xs rest
    | none => ChangeMerge.OLD x :: merge_changes_transfer xs right

/-- `only_change_type` (transactions_merge.rs lines 101-106). -/
def only_change_type (changes : List Change) (t : Change_ChangeType) : List Change :=
  changes.filter (fun c => c.change_type == t)

/-- The closure at transactions_merge.rs lines 89-92: drop all changes that did
not come with the update. -/
def ChangeMerge.came_with_update : ChangeMerge → Bool
  | .OLD _ => false
  | _ => true

/-- `merge_changes` (transactions_merge.rs lines 73-99). -/
def merge_changes (existing proposed : List Change) : List Change :=
  let transfers := merge_changes_transfer
    (only_change_type existing .TRANSFER)
    (only_change_type proposed .TRANSFER)
  let proposed_fees := only_change_type proposed .FEE
  let fees := if proposed_fees.isEmpty then only_change_type existing .FEE else proposed_fees
  (transfers.filter ChangeMerge.came_with_update).map ChangeMerge.merge ++ fees

/-- `Transaction::merge` (transactions_merge.rs lines 28-39). -/
def Transaction.merge (self update : Transaction) : Transaction :=
  let merged := update
  let merged := if update.confirm_timestamp < self.confirm_timestamp then
    { merged with confirm_timestamp := self.confirm_timestamp } else merged
  let merged := if merged.since_timestamp = 0 then
    { merged with since_timestamp := self.since_timestamp } else merged
  { merged with changes := merge_changes self.changes update.changes }

/-! ### Lemmas about the merge -/

theorem Change.merge_change_type (a b : Change) : (a.merge b).change_type = b.change_type := by
  unfold Change.merge
  split <;> rfl

theorem mem_only_change_type {c : Change} {l : List Change} {t : Change_ChangeType}
    (h : c ∈ only_change_type l t) : c.change_type = t := by
  have := (List.mem_filter.mp h).2
  simpa using this

theorem only_change_type_filter_self (l : List Change) (t : Change_ChangeType) :
    (only_change_type l t).filter (fun c => c.change_type == t) = only_change_type l t :=
  List.filter_eq_self.mpr fun c hc => by simpa using mem_only_change_type hc

theorem removeFirstSimilar_sub {x : Change} {r : List Change} {a : Change} {rest : List Change}
    (h : removeFirstSimilar x r = some (a, rest)) : a ∈ r ∧ rest ⊆ r := by
  induction r generalizing a rest with
  | nil => simp [removeFirstSimilar] at h
  | cons y ys ih =>
    unfold removeFirstSimilar at h
    by_cases hs : x.is_similar_to y
    · simp only [hs, if_true, Option.some.injEq, Prod.mk.injEq] at h
      obtain ⟨rfl, rfl⟩ := h
      exact ⟨List.mem_cons_self _ _, List.subset_cons_self _ _⟩
    · simp only [hs, if_false, Bool.false_eq_true] at h
      cases hrec : removeFirstSimilar x ys with
      | none => rw [hrec] at h; exact absurd h (by simp)
      | some p =>
        obtain ⟨a', rest'⟩ := p
        rw [hrec] at h
        simp only [Option.some.injEq, Prod.mk.injEq] at h
        obtain ⟨rfl, rfl⟩ := h
        obtain ⟨hmem, hsub⟩ := ih hrec
        exact ⟨List.mem_cons_of_mem _ hmem, List.cons_subset_cons _ hsub⟩

/-- Every change surviving the transfer part of the merge takes its
`change_type` from the proposed list. -/
theorem transfersPart_transfer (l : List Change) (r : List Change)
    (hr : ∀ c ∈ r, c.change_type = .TRANSFER) :
    ∀ c ∈ ((merge_changes_transfer l r).filter ChangeMerge.came_with_update).map
      ChangeMerge.merge, c.change_type = .TRANSFER := by
  induction l generalizing r with
  | nil =>
    intro c hc
    obtain ⟨m, hm, rfl⟩ := List.mem_map.mp hc
    have hm' := (List.mem_filter.mp hm).1
    simp only [merge_changes_transfer] at hm'
    obtain ⟨v, hv, rfl⟩ := List.mem_map.mp hm'
    exact hr v hv
  | cons x xs ih =>
    intro c hc
    simp only [merge_changes_transfer] at hc
    cases hrem : removeFirstSimilar x r with
    | some p =>
      obtain ⟨a, rest⟩ := p
      rw [hrem] at hc
      obtain ⟨hmem, hsub⟩ := removeFirstSimilar_sub hrem
      simp only [List.filter_cons, ChangeMerge.came_with_update, if_true,
        List.map_cons, List.mem_cons] at hc
      rcases hc with hc | hc
      · rw [hc, ChangeMerge.merge, Change.merge_change_type]
        exact hr a hmem
      · exact ih rest (fun c h => hr c (hsub h)) c hc
    | none =>
      rw [hrem] at hc
      simp only [List.filter_cons, ChangeMerge.came_with_update] at hc
      exact ih r hr c hc

/-- The FEE changes of a merged change list are the ones the `fees` binding of
`merge_changes` selects. -/
theorem merge_changes_fee (e p : List Change) :
    only_change_type (merge_changes e p) .FEE
      = if (only_change_type p .FEE).isEmpty then only_change_type e .FEE
        else only_change_type p .FEE := by
  unfold merge_changes
  rw [only_change_type, List.filter_append]
  have h1 : (((merge_changes_transfer (only_change_type e .TRANSFER)
      (only_change_type p .TRANSFER)).filter ChangeMerge.came_with_update).map
        ChangeMerge.merge).filter (fun c => c.change_type == Change_ChangeType.FEE) = [] := by
    apply List.filter_eq_nil_iff.mpr
    intro c hc
    have := transfersPart_transfer _ _ (fun c hc => mem_only_change_type hc) c hc
    simp [this]
  rw [h1, List.nil_append]
  by_cases hfee : (only_change_type p .FEE).isEmpty
  · simp only [hfee, if_true]
    exact only_change_type_filter_self e .FEE
  · simp only [hfee, if_false, Bool.false_eq_true]
    exact only_change_type_filter_self p .FEE

theorem merge_changes_of_merge (s u : Transaction) :
    (s.merge u).changes = merge_changes s.changes u.changes := rfl

/-! ### Self-merge lemmas -/

theorem Change.is_similar_to_self (x : Change) : x.is_similar_to x = true := by
  simp [Change.is_similar_to]

theorem removeFirstSimilar_self (x : Change) (rest : List Change) :
    removeFirstSimilar x (x :: rest) = some (x, rest) := by
  unfold removeFirstSimilar
  rw [Change.is_similar_to_self]
  rfl

theorem merge_changes_transfer_self (l : List Change) :
    merge_changes_transfer l l = l.map (fun x => ChangeMerge.SAME x x) := by
  induction l with
  | nil => rfl
  | cons x xs ih =>
    unfold merge_changes_transfer
    rw [removeFirstSimilar_self]
    simpa using ih

theorem Change.merge_self (x : Change) : x.merge x = x := by
  unfold Change.merge
  split <;> rfl

theorem merge_changes_self (c : List Change) :
    merge_changes c c = only_change_type c .TRANSFER ++ only_change_type c .FEE := by
  unfold merge_changes
  simp only [merge_changes_transfer_self, ite_self]
  congr 1
  have hfilter : ((only_change_type c .TRANSFER).map
      (fun x => ChangeMerge.SAME x x)).filter ChangeMerge.came_with_update
      = (only_change_type c .TRANSFER).map (fun x => ChangeMerge.SAME x x) := by
    apply List.filter_eq_self.mpr
    intro m hm
    obtain ⟨v, _, rfl⟩ := List.mem_map.mp hm
    rfl
  rw [hfilter, List.map_map]
  have : (ChangeMerge.merge ∘ fun x => ChangeMerge.SAME x x) = fun x => x.merge x := rfl
  rw [this]
  calc (only_change_type c .TRANSFER).map (fun x => x.merge x)
      = (only_change_type c .TRANSFER).map id :=
        List.map_congr_left fun x _ => Change.merge_self x
    _ = only_change_type c .TRANSFER := List.map_id _


theorem Transaction.merge_eta (t : Transaction) :
    t.merge t = { t with changes := merge_changes t.changes t.changes } := by
  unfold Transaction.merge
  have e1 : ({ t with confirm_timestamp := t.confirm_timestamp } : Transaction) = t := rfl
  have e2 : ({ t with since_timestamp := t.since_timestamp } : Transaction) = t := rfl
  simp only [e1, e2, ite_self]

/-! ### Concrete transactions used as inputs below -/

def sampleTransfer : Change :=
  { wallet_id := "72279ede-44c4-4951-925b-f51a7b9e929a", entry_id := 5,
    address := "0xa0b86991c6218b36c1d19d4a2e9eb0ce3606eb48", amount := "100000000",
    asset := "ETHER", direction := .SPEND, change_type := .TRANSFER }

def sampleFee : Change :=
  { sampleTransfer with amount := "300", change_type := .FEE }

/-- A transaction whose `changes` list holds a FEE change before a TRANSFER
change — a legal ordered list per the data model. -/
def txFeeFirst : Transaction :=
  { blockchain := 101, tx_id := "0x01", state := 0, since_timestamp := 1647313850992,
    confirm_timestamp := 0, block_pos := 0, changes := [sampleFee, sampleTransfer] }

def txTransferFirst : Transaction :=
  { txFeeFirst with changes := [sampleTransfer, sampleFee] }

/-! ### Claim C1 -/

/-- C1: for `stored.merge(incoming)`, if the incoming transaction has at least
one FEE change then the FEE changes of the merged result are exactly the FEE
changes of the incoming transaction; if the incoming transaction has no FEE
change, the FEE changes of the merged result are exactly the FEE changes of the
stored transaction — for every pair of transactions. -/
theorem merge_fee_replacement (stored incoming : Transaction) :
    (only_change_type incoming.changes .FEE ≠ [] →
      only_change_type (stored.merge incoming).changes .FEE
        = only_change_type incoming.changes .FEE)
    ∧ (only_change_type incoming.changes .FEE = [] →
      only_change_type (stored.merge incoming).changes .FEE
        = only_change_type stored.changes .FEE) := by
  constructor
  · intro hne
    rw [merge_changes_of_merge, merge_changes_fee]
    simp [List.isEmpty_iff, hne]
  · intro heq
    rw [merge_changes_of_merge, merge_changes_fee]
    simp [heq]

/-- Witness for C1 at a concrete pair: the incoming transaction carries a fee,
and the merged result keeps exactly the incoming fees. -/
theorem merge_fee_replacement_witness :
    only_change_type (txFeeFirst.merge txTransferFirst).changes .FEE
      = only_change_type txTransferFirst.changes .FEE :=
  (merge_fee_replacement txFeeFirst txTransferFirst).1 (by decide)

/-! ### Claim C2 -/

/-- C2 counterexample: self-merge is not the identity for every ordered changes
list.  A transaction whose FEE change precedes its TRANSFER change is reordered
by `merge` (transfers first, fees appended), so `t.merge(t) ≠ t` at this
concrete input. -/
theorem merge_not_idempotent_on_fee_first :
    txFeeFirst.merge txFeeFirst ≠ txFeeFirst
      ∧ (txFeeFirst.merge txFeeFirst).changes = [sampleTransfer, sampleFee] := by
  decide

/-- C2 amended: `t.merge(t) = t` (equality including the order of the changes
list) holds exactly on the claim's domain narrowed to transactions whose
changes list all TRANSFER changes before all FEE changes; in general the
self-merge keeps the fields and reorders `changes` to transfers-then-fees. -/
theorem merge_self_idempotent_when_ordered (t : Transaction)
    (h : t.changes = only_change_type t.changes .TRANSFER
      ++ only_change_type t.changes .FEE) :
    t.merge t = t := by
  rw [Transaction.merge_eta, merge_changes_self, ← h]

/-- Witness for C2 as amended at a concrete transfers-then-fees transaction. -/
theorem merge_self_idempotent_witness :
    txTransferFirst.merge txTransferFirst = txTransferFirst :=
  merge_self_idempotent_when_ordered txTransferFirst (by decide)

/-! ### Index encoding (`src/storage/indexing.rs`)

The sled engine orders keys by their bytes; every encoded key below is ASCII,
so byte-wise and character-wise comparison agree.  `lexLt` is that strict
lexicographic order, written out executably. -/

def lexLt : List Char → List Char → Bool
  | [], [] => false
  | [], _ :: _ => true
  | _ :: _, [] => false
  | x :: xs, y :: ys =>
    if x.toNat < y.toNat then true
    else if y.toNat < x.toNat then false
    else lexLt xs ys

/-- Strict lexicographic order on strings (comparison of the character lists). -/
def strLt (a b : String) : Bool := lexLt a.data b.data

/-- The minimal decimal digits of `n`, most significant first: what Rust's
`{}` formatting prints for an unsigned integer. -/
def decChars (n : Nat) : List Char :=
  if n < 10 then [Nat.digitChar n]
  else decChars (n / 10) ++ [Nat.digitChar (n % 10)]
  decreasing_by exact Nat.div_lt_self (by omega) (by omega)

/-- `format!("{:#0w}", n)` for unsigned `n`: the decimal of `n`, left-padded
with zeros to a minimum width `w`; longer decimals print in full. -/
def fmtChars (w n : Nat) : List Char :=
  List.replicate (w - (decChars n).length) '0' ++ decChars n

namespace IndexConvert

/-- `IndexConvert::get_desc_timestamp` (indexing.rs lines 92-95):
`format!("D{:#013}", 9_999_999_999_999 - ts)`.  The subtraction is on `u64`,
so for `ts > 9_999_999_999_999` it wraps around `2 ^ 64` (release-profile
semantics); the embedding makes that wrap explicit. -/
def get_desc_timestamp (ts : Nat) : String :=
  ⟨'D' :: fmtChars 13 ((9999999999999 + 2 ^ 64 - ts) % 2 ^ 64)⟩

/-- `IndexConvert::get_asc_number` (indexing.rs lines 97-100):
`format!("A{:#020}", v)`. -/
def get_asc_number (v : Nat) : String :=
  ⟨'A' :: fmtChars 20 v⟩

/-- `IndexConvert::get_desc_number` (indexing.rs lines 102-105):
`format!("A{:#020}", u64::MAX - v)` — note the source writes the prefix `'A'`
here, the same prefix as the ascending encoding (the unit test
`format_number_desc` pins `"A18446744073709551615"` for input 0). -/
def get_desc_number (v : Nat) : String :=
  ⟨'A' :: fmtChars 20 (18446744073709551615 - v)⟩

end IndexConvert

/-! ### Fixed-width decimal strings and lexicographic order -/

/-- The `k` least-significant decimal digits of `n`, most significant first. -/
def padDig : Nat → Nat → List Char
  | 0, _ => []
  | k + 1, n => Nat.digitChar (n / 10 ^ k % 10) :: padDig k n

theorem padDig_length (k n : Nat) : (padDig k n).length = k := by
  induction k generalizing n with
  | zero => rfl
  | succ k ih => simp [padDig, ih]

theorem padDig_snoc (k n : Nat) :
    padDig (k + 1) n = padDig k (n / 10) ++ [Nat.digitChar (n % 10)] := by
  induction k generalizing n with
  | zero => simp [padDig]
  | succ k ih =>
    have hdiv : n / 10 / 10 ^ k = n / 10 ^ (k + 1) := by
      rw [Nat.div_div_eq_div_mul, pow_succ, mul_comm]
    calc padDig (k + 2) n
        = Nat.digitChar (n / 10 ^ (k + 1) % 10) :: padDig (k + 1) n := rfl
      _ = Nat.digitChar (n / 10 ^ (k + 1) % 10)
            :: (padDig k (n / 10) ++ [Nat.digitChar (n % 10)]) := by rw [ih]
      _ = (Nat.digitChar (n / 10 / 10 ^ k % 10) :: padDig k (n / 10))
            ++ [Nat.digitChar (n % 10)] := by rw [hdiv]; rfl
      _ = padDig (k + 1) (n / 10) ++ [Nat.digitChar (n % 10)] := rfl

theorem padDig_mod (k n : Nat) : padDig k (n % 10 ^ k) = padDig k n := by
  induction k generalizing n with
  | zero => rfl
  | succ k ih =>
    have hhead : n % 10 ^ (k + 1) / 10 ^ k % 10 = n / 10 ^ k % 10 := by
      rw [pow_succ, Nat.mod_mul_right_div_self]
      omega
    have hmod : n % 10 ^ (k + 1) % 10 ^ k = n % 10 ^ k :=
      Nat.mod_mod_of_dvd n (pow_dvd_pow 10 (Nat.le_succ k))
    show Nat.digitChar (n % 10 ^ (k + 1) / 10 ^ k % 10) :: padDig k (n % 10 ^ (k + 1))
      = Nat.digitChar (n / 10 ^ k % 10) :: padDig k n
    rw [hhead, ← ih (n % 10 ^ (k + 1)), hmod, ih]

theorem decChars_lt_pow (n : Nat) : n < 10 ^ (decChars n).length := by
  induction n using Nat.strong_induction_on with
  | _ n ih =>
    by_cases h : n < 10
    · rw [decChars, if_pos h]
      simpa using h
    · rw [decChars, if_neg h]
      have hrec := ih (n / 10) (Nat.div_lt_self (by omega) (by omega))
      have : n < 10 ^ ((decChars (n / 10)).length + 1) := by
        rw [pow_succ]
        calc n < (n / 10 + 1) * 10 := by omega
          _ ≤ 10 ^ (decChars (n / 10)).length * 10 :=
              Nat.mul_le_mul_right 10 hrec
      simpa using this

theorem decChars_length_le {k n : Nat} (h : n < 10 ^ k) (hk : 0 < k) :
    (decChars n).length ≤ k := by
  induction k generalizing n with
  | zero => omega
  | succ k ih =>
    by_cases h10 : n < 10
    · rw [decChars, if_pos h10]
      simp
    · rw [decChars, if_neg h10]
      have hk0 : 0 < k := by
        by_contra hc
        have : k = 0 := by omega
        subst this
        simp at h
        omega
      have hdiv : n / 10 < 10 ^ k := by
        rw [Nat.div_lt_iff_lt_mul (by omega)]
        calc n < 10 ^ (k + 1) := h
          _ = 10 ^ k * 10 := by rw [pow_succ]
      have := ih hdiv hk0
      simp only [List.length_append, List.length_cons, List.length_nil]
      omega

theorem padDig_eq_decChars (n : Nat) : padDig (decChars n).length n = decChars n := by
  induction n using Nat.strong_induction_on with
  | _ n ih =>
    by_cases h : n < 10
    · rw [decChars, if_pos h]
      show padDig 1 n = [Nat.digitChar n]
      simp [padDig, Nat.mod_eq_of_lt h]
    · rw [decChars, if_neg h]
      have hrec := ih (n / 10) (Nat.div_lt_self (by omega) (by omega))
      have hlen : (decChars (n / 10) ++ [Nat.digitChar (n % 10)]).length
          = (decChars (n / 10)).length + 1 := by simp
      rw [hlen, padDig_snoc, hrec]

theorem padDig_succ_of_lt {k n : Nat} (h : n < 10 ^ k) :
    padDig (k + 1) n = '0' :: padDig k n := by
  show Nat.digitChar (n / 10 ^ k % 10) :: padDig k n = '0' :: padDig k n
  rw [Nat.div_eq_of_lt h]
  rfl

theorem padDig_replicate (n j : Nat) :
    padDig ((decChars n).length + j) n = List.replicate j '0' ++ decChars n := by
  induction j with
  | zero => simpa using padDig_eq_decChars n
  | succ j ih =>
    have hlt : n < 10 ^ ((decChars n).length + j) :=
      lt_of_lt_of_le (decChars_lt_pow n) (Nat.pow_le_pow_right (by omega) (by omega))
    calc padDig ((decChars n).length + (j + 1)) n
        = padDig (((decChars n).length + j) + 1) n := by ring_nf
      _ = '0' :: padDig ((decChars n).length + j) n := padDig_succ_of_lt hlt
      _ = '0' :: (List.replicate j '0' ++ decChars n) := by rw [ih]
      _ = List.replicate (j + 1) '0' ++ decChars n := by simp [List.replicate_succ]

theorem fmtChars_eq_padDig {k n : Nat} (h : n < 10 ^ k) (hk : 0 < k) :
    fmtChars k n = padDig k n := by
  have hle : (decChars n).length ≤ k := decChars_length_le h hk
  have hk' : k = (decChars n).length + (k - (decChars n).length) := by omega
  calc fmtChars k n
      = List.replicate (k - (decChars n).length) '0' ++ decChars n := rfl
    _ = padDig ((decChars n).length + (k - (decChars n).length)) n :=
        (padDig_replicate n _).symm
    _ = padDig k n := by rw [← hk']

theorem fmtChars_length {k n : Nat} (h : n < 10 ^ k) (hk : 0 < k) :
    (fmtChars k n).length = k := by
  rw [fmtChars_eq_padDig h hk, padDig_length]

theorem digitChar_toNat {d : Nat} (h : d ≤ 9) : (Nat.digitChar d).toNat = 48 + d := by
  interval_cases d <;> rfl

theorem lexLt_cons_self (c : Char) (a b : List Char) :
    lexLt (c :: a) (c :: b) = lexLt a b := by
  simp [lexLt]

/-- Fixed-width decimal strings compare lexicographically as their values. -/
theorem lexLt_padDig {k m n : Nat} (hmn : m < n) (hn : n < 10 ^ k) :
    lexLt (padDig k m) (padDig k n) = true := by
  induction k generalizing m n with
  | zero => simp at hn; omega
  | succ k ih =>
    have hm : m < 10 ^ (k + 1) := lt_trans hmn hn
    have hn10 : n / 10 ^ k < 10 := by
      rw [Nat.div_lt_iff_lt_mul (Nat.pos_pow_of_pos k (by omega))]
      calc n < 10 ^ (k + 1) := hn
        _ = 10 * 10 ^ k := by ring
    have hm10 : m / 10 ^ k < 10 := by
      rw [Nat.div_lt_iff_lt_mul (Nat.pos_pow_of_pos k (by omega))]
      calc m < 10 ^ (k + 1) := hm
        _ = 10 * 10 ^ k := by ring
    have hdiv_le : m / 10 ^ k ≤ n / 10 ^ k := Nat.div_le_div_right (le_of_lt hmn)
    show lexLt (Nat.digitChar (m / 10 ^ k % 10) :: padDig k m)
      (Nat.digitChar (n / 10 ^ k % 10) :: padDig k n) = true
    rw [Nat.mod_eq_of_lt hm10, Nat.mod_eq_of_lt hn10]
    rcases lt_or_eq_of_le hdiv_le with hlt | heq
    · have hlt' : (Nat.digitChar (m / 10 ^ k)).toNat < (Nat.digitChar (n / 10 ^ k)).toNat := by
        rw [digitChar_toNat (by omega), digitChar_toNat (by omega)]
        omega
      simp [lexLt, hlt']
    · rw [heq, lexLt_cons_self]
      have hmod_lt : m % 10 ^ k < n % 10 ^ k := by
        have h1 := Nat.div_add_mod m (10 ^ k)
        have h2 := Nat.div_add_mod n (10 ^ k)
        rw [← heq] at h2
        omega
      have hmod_bound : n % 10 ^ k < 10 ^ k := Nat.mod_lt _ (Nat.pos_pow_of_pos k (by omega))
      rw [← padDig_mod k m, ← padDig_mod k n]
      exact ih hmod_lt hmod_bound

theorem fmtChars_lexLt {k m n : Nat} (hmn : m < n) (hn : n < 10 ^ k) (hk : 0 < k) :
    lexLt (fmtChars k m) (fmtChars k n) = true := by
  rw [fmtChars_eq_padDig (lt_trans hmn hn) hk, fmtChars_eq_padDig hn hk]
  exact lexLt_padDig hmn hn

/-! ### Reading a decimal string back -/

/-- The numeric value of a decimal digit string (most significant first). -/
def charsVal (cs : List Char) : Nat :=
  cs.foldl (fun acc c => acc * 10 + (c.toNat - 48)) 0

def isDigitChar (c : Char) : Bool := 48 ≤ c.toNat && c.toNat ≤ 57

theorem charsVal_append (xs : List Char) (c : Char) :
    charsVal (xs ++ [c]) = charsVal xs * 10 + (c.toNat - 48) := by
  simp [charsVal, List.foldl_append]

theorem charsVal_decChars (n : Nat) : charsVal (decChars n) = n := by
  induction n using Nat.strong_induction_on with
  | _ n ih =>
    by_cases h : n < 10
    · rw [decChars, if_pos h]
      have : (Nat.digitChar n).toNat = 48 + n := digitChar_toNat (by omega)
      simp [charsVal, this]
    · rw [decChars, if_neg h]
      rw [charsVal_append, ih (n / 10) (Nat.div_lt_self (by omega) (by omega))]
      have : (Nat.digitChar (n % 10)).toNat = 48 + n % 10 :=
        digitChar_toNat (by omega)
      rw [this]
      omega

theorem foldl_val_zeros (j : Nat) :
    List.foldl (fun acc c => acc * 10 + (c.toNat - 48)) 0 (List.replicate j '0') = 0 := by
  induction j with
  | zero => rfl
  | succ j ih => simpa [List.replicate_succ] using ih

theorem charsVal_fmtChars (w n : Nat) : charsVal (fmtChars w n) = n := by
  rw [fmtChars, charsVal, List.foldl_append, foldl_val_zeros]
  exact charsVal_decChars n

theorem decChars_digits (n : Nat) : ∀ c ∈ decChars n, isDigitChar c = true := by
  induction n using Nat.strong_induction_on with
  | _ n ih =>
    by_cases h : n < 10
    · rw [decChars, if_pos h]
      intro c hc
      simp only [List.mem_singleton] at hc
      subst hc
      simp only [isDigitChar, digitChar_toNat (show n ≤ 9 by omega)]
      simp only [Bool.and_eq_true, decide_eq_true_eq]
      omega
    · rw [decChars, if_neg h]
      intro c hc
      rcases List.mem_append.mp hc with hc | hc
      · exact ih (n / 10) (Nat.div_lt_self (by omega) (by omega)) c hc
      · simp only [List.mem_singleton] at hc
        subst hc
        simp only [isDigitChar, digitChar_toNat (show n % 10 ≤ 9 by omega)]
        simp only [Bool.and_eq_true, decide_eq_true_eq]
        omega

theorem fmtChars_digits (w n : Nat) : ∀ c ∈ fmtChars w n, isDigitChar c = true := by
  intro c hc
  rcases List.mem_append.mp hc with hc | hc
  · rw [List.eq_of_mem_replicate hc]
    rfl
  · exact decChars_digits n c hc

/-! ### Claim C3 -/

/-- On its 13-digit domain the descending timestamp encoding is the plain
difference (no wrap). -/
theorem get_desc_timestamp_of_le {ts : Nat} (h : ts ≤ 9999999999999) :
    IndexConvert.get_desc_timestamp ts = ⟨'D' :: fmtChars 13 (9999999999999 - ts)⟩ := by
  rw [IndexConvert.get_desc_timestamp]
  have h1 : 9999999999999 + 2 ^ 64 - ts = 2 ^ 64 + (9999999999999 - ts) := by omega
  rw [h1, Nat.add_mod_left, Nat.mod_eq_of_lt (by omega)]

theorem strLt_mk_cons (c : Char) (a b : List Char) :
    strLt ⟨c :: a⟩ ⟨c :: b⟩ = lexLt a b := by
  rw [strLt]
  exact lexLt_cons_self c a b

/-- C3 counterexample: the order and constant-width properties do not hold for
every pair of u64 timestamps.  `get_desc_timestamp` wraps its u64 subtraction:
at `t1 = 9_999_999_999_999 < t2 = u64::MAX` the output for `t2` is
`"D10000000000000"` (15 characters) while the output for `t1` is
`"D0000000000000"` (14 characters), and `desc_timestamp(t1)` is
lexicographically smaller, not greater, than `desc_timestamp(t2)`. -/
theorem desc_timestamp_wrap_counterexample :
    9999999999999 < 18446744073709551615
    ∧ strLt (IndexConvert.get_desc_timestamp 18446744073709551615)
        (IndexConvert.get_desc_timestamp 9999999999999) = false
    ∧ (IndexConvert.get_desc_timestamp 9999999999999).length = 14
    ∧ (IndexConvert.get_desc_timestamp 18446744073709551615).length = 15 := by
  have e1 : IndexConvert.get_desc_timestamp 9999999999999 = ⟨'D' :: fmtChars 13 0⟩ := by
    rw [IndexConvert.get_desc_timestamp]
    norm_num
  have e2 : IndexConvert.get_desc_timestamp 18446744073709551615
      = ⟨'D' :: fmtChars 13 10000000000000⟩ := by
    rw [IndexConvert.get_desc_timestamp]
    norm_num
  have hd0 : decChars 0 = ['0'] := by
    rw [decChars]
    norm_num [Nat.digitChar]
  have hd1 : decChars 10000000000000 = "10000000000000".data := by
    repeat (rw [decChars]; norm_num [Nat.digitChar])
  rw [e1, e2]
  simp only [fmtChars, hd0, hd1]
  decide

/-- C3 amended: the order-preservation and constant-width properties hold with
the descending-timestamp inputs restricted to the 13-digit range
`ts ≤ 9_999_999_999_999` (beyond it the u64 subtraction
`9_999_999_999_999 - ts` wraps, which both reverses the order at the wrap
boundary and widens the output, as the counterexample shows); the `asc_u64` and
`desc_u64` parts hold for all u64 inputs as claimed, with constant width 21. -/
theorem index_encoding_order_amended (t1 t2 v1 v2 : Nat)
    (ht : t1 < t2) (ht2 : t2 ≤ 9999999999999) (hv : v1 < v2) (hv2 : v2 < 2 ^ 64) :
    strLt (IndexConvert.get_desc_timestamp t2) (IndexConvert.get_desc_timestamp t1) = true
    ∧ strLt (IndexConvert.get_asc_number v1) (IndexConvert.get_asc_number v2) = true
    ∧ strLt (IndexConvert.get_desc_number v2) (IndexConvert.get_desc_number v1) = true
    ∧ (IndexConvert.get_desc_timestamp t1).length = 14
    ∧ (IndexConvert.get_asc_number v1).length = 21
    ∧ (IndexConvert.get_desc_number v1).length = 21 := by
  have ht1 : t1 ≤ 9999999999999 := by omega
  have hpow13 : (9999999999999 : Nat) < 10 ^ 13 := by norm_num
  have hpow20 : (2 : Nat) ^ 64 < 10 ^ 20 := by norm_num
  have hmax20 : (18446744073709551615 : Nat) < 10 ^ 20 := by norm_num
  refine ⟨?_, ?_, ?_, ?_, ?_, ?_⟩
  · rw [get_desc_timestamp_of_le ht2, get_desc_timestamp_of_le ht1, strLt_mk_cons]
    exact fmtChars_lexLt (by omega)
      (lt_of_le_of_lt (Nat.sub_le _ _) hpow13) (by omega)
  · rw [IndexConvert.get_asc_number, IndexConvert.get_asc_number, strLt_mk_cons]
    exact fmtChars_lexLt hv (lt_trans hv2 hpow20) (by omega)
  · rw [IndexConvert.get_desc_number, IndexConvert.get_desc_number, strLt_mk_cons]
    exact fmtChars_lexLt (by omega)
      (lt_of_le_of_lt (Nat.sub_le _ _) hmax20) (by omega)
  · rw [get_desc_timestamp_of_le ht1]
    show ('D' :: fmtChars 13 (9999999999999 - t1)).length = 14
    rw [List.length_cons,
      fmtChars_length (lt_of_le_of_lt (Nat.sub_le _ _) hpow13) (by omega)]
  · rw [IndexConvert.get_asc_number]
    show ('A' :: fmtChars 20 v1).length = 21
    rw [List.length_cons, fmtChars_length (by omega) (by omega)]
  · rw [IndexConvert.get_desc_number]
    show ('A' :: fmtChars 20 (18446744073709551615 - v1)).length = 21
    rw [List.length_cons,
      fmtChars_length (lt_of_le_of_lt (Nat.sub_le _ _) hmax20) (by omega)]

/-- Witness for C3 as amended, at `t1 = 3 < t2 = 5` and `v1 = 3 < v2 = 5`. -/
theorem index_encoding_order_witness :
    strLt (IndexConvert.get_desc_timestamp 5) (IndexConvert.get_desc_timestamp 3) = true
    ∧ strLt (IndexConvert.get_asc_number 3) (IndexConvert.get_asc_number 5) = true
    ∧ strLt (IndexConvert.get_desc_number 5) (IndexConvert.get_desc_number 3) = true
    ∧ (IndexConvert.get_desc_timestamp 3).length = 14
    ∧ (IndexConvert.get_asc_number 3).length = 21
    ∧ (IndexConvert.get_desc_number 3).length = 21 :=
  index_encoding_order_amended 3 5 3 5 (by omega) (by omega) (by omega) (by norm_num)

/-! ### Claim C6 -/

/-- C6 counterexample: `get_desc_number` prefixes its output with `'A'`, not
`'D'` — at input 0 it returns `"A18446744073709551615"` (matching the unit
test `format_number_desc`), not `"D18446744073709551615"`. -/
theorem desc_number_prefix_counterexample :
    IndexConvert.get_desc_number 0 = "A18446744073709551615"
    ∧ IndexConvert.get_desc_number 0 ≠ "D18446744073709551615" := by
  have hdec : decChars 18446744073709551615 = "18446744073709551615".data := by
    repeat (rw [decChars]; norm_num [Nat.digitChar])
  have h1 : IndexConvert.get_desc_number 0 = "A18446744073709551615" := by
    rw [IndexConvert.get_desc_number]
    simp only [Nat.sub_zero, fmtChars, hdec]
    decide
  exact ⟨h1, by rw [h1]; decide⟩

/-- C6 amended: for every u64 value `v`, `get_desc_number v` is 21 characters:
the prefix character `'A'` (not `'D'`; the same prefix the ascending encoding
uses) followed by 20 decimal digits reading back as `u64::MAX - v`; and
`get_asc_number v` is `'A'` followed by 20 decimal digits reading back as `v`. -/
theorem desc_number_encoding_amended (v : Nat) (h : v < 2 ^ 64) :
    (IndexConvert.get_desc_number v).data.head? = some 'A'
    ∧ (IndexConvert.get_desc_number v).length = 21
    ∧ (∀ c ∈ (IndexConvert.get_desc_number v).data.tail, isDigitChar c = true)
    ∧ (IndexConvert.get_desc_number v).data.tail.length = 20
    ∧ charsVal (IndexConvert.get_desc_number v).data.tail = 18446744073709551615 - v
    ∧ (IndexConvert.get_asc_number v).data.head? = some 'A'
    ∧ (IndexConvert.get_asc_number v).length = 21
    ∧ charsVal (IndexConvert.get_asc_number v).data.tail = v := by
  have hmax20 : (18446744073709551615 : Nat) < 10 ^ 20 := by norm_num
  have hbound : 18446744073709551615 - v < 10 ^ 20 :=
    lt_of_le_of_lt (Nat.sub_le _ _) hmax20
  refine ⟨rfl, ?_, ?_, ?_, ?_, rfl, ?_, ?_⟩
  · show ('A' :: fmtChars 20 (18446744073709551615 - v)).length = 21
    rw [List.length_cons, fmtChars_length hbound (by omega)]
  · show ∀ c ∈ fmtChars 20 (18446744073709551615 - v), isDigitChar c = true
    exact fmtChars_digits _ _
  · show (fmtChars 20 (18446744073709551615 - v)).length = 20
    exact fmtChars_length hbound (by omega)
  · show charsVal (fmtChars 20 (18446744073709551615 - v)) = 18446744073709551615 - v
    exact charsVal_fmtChars _ _
  · show ('A' :: fmtChars 20 v).length = 21
    rw [List.length_cons, fmtChars_length (by omega) (by omega)]
  · show charsVal (fmtChars 20 v) = v
    exact charsVal_fmtChars _ _

/-- Witness for C6 as amended at `v = 0`. -/
theorem desc_number_encoding_witness :
    (IndexConvert.get_desc_number 0).data.head? = some 'A'
    ∧ (IndexConvert.get_desc_number 0).length = 21
    ∧ (∀ c ∈ (IndexConvert.get_desc_number 0).data.tail, isDigitChar c = true)
    ∧ (IndexConvert.get_desc_number 0).data.tail.length = 20
    ∧ charsVal (IndexConvert.get_desc_number 0).data.tail = 18446744073709551615 - 0
    ∧ (IndexConvert.get_asc_number 0).data.head? = some 'A'
    ∧ (IndexConvert.get_asc_number 0).length = 21
    ∧ charsVal (IndexConvert.get_asc_number 0).data.tail = 0 :=
  desc_number_encoding_amended 0 (by norm_num)

/-! ### Trigram extraction (`src/storage/trigrams.rs`) -/

namespace Trigram

/-- Rust `str::to_lowercase`, restricted to the scripts the repository's data
and unit tests exercise: ASCII `A-Z` and the basic Cyrillic capitals
(`А`-`Я` and `Ё`); identity on every other character.  The full Unicode
mapping is immaterial to the claims settled here — the inputs they evaluate
are ASCII or already-lowercase Cyrillic. -/
def lowerChar (c : Char) : Char :=
  if 65 ≤ c.toNat ∧ c.toNat ≤ 90 then Char.ofNat (c.toNat + 32)
  else if 0x410 ≤ c.toNat ∧ c.toNat ≤ 0x42F then Char.ofNat (c.toNat + 32)
  else if c.toNat = 0x401 then Char.ofNat 0x451
  else c

/-- Whitespace as `str::trim` and the regex class `\s` see it (ASCII part;
the non-ASCII White_Space code points are not exercised by the claims). -/
def isWsChar (c : Char) : Bool :=
  c == ' ' || c == '\t' || c == '\n' || c == '\r'
    || c.toNat == 0x0B || c.toNat == 0x0C

/-- The character class of the removal regex `[\s\-_&]`
(trigrams.rs line 11). -/
def isRemovedChar (c : Char) : Bool :=
  isWsChar c || c == '-' || c == '_' || c == '&'

/-- `Trigram::clean` (trigrams.rs lines 10-17): lowercase, trim, then delete
every `[\s\-_&]` character. -/
def clean (text : String) : String :=
  let lowered := text.data.map lowerChar
  let trimmed := ((lowered.dropWhile isWsChar).reverse.dropWhile isWsChar).reverse
  ⟨trimmed.filter (fun c => !(isRemovedChar c))⟩

/-- `HashSet::insert` observed through the final list: keep first insertions,
drop duplicates.  The source's `HashSet` iteration order is unspecified; the
embedding fixes first-insertion order, preserving the set of n-grams. -/
def insertNew (l : List String) (s : String) : List String :=
  if l.contains s then l else l ++ [s]

/-- The n-gram loop of `Trigram::extract` (trigrams.rs lines 45-61): for every
index insert the 1-gram, and past the first (second) index the 2-gram
(3-gram) ending there. -/
def ngrams (cs : List Char) : List String :=
  (List.range cs.length).foldl (fun acc i =>
    let acc := insertNew acc ⟨(cs.drop i).take 1⟩
    let acc := if 0 < i then insertNew acc ⟨(cs.drop (i - 1)).take 2⟩ else acc
    if 1 < i then insertNew acc ⟨(cs.drop (i - 2)).take 3⟩ else acc) []

/-- `Trigram::extract` (trigrams.rs lines 36-62).  The short-text test is
`clean.len() < 3` on the still-unexploded `String` — Rust's `String::len`,
i.e. the UTF-8 byte count — while the n-gram branch first explodes into
`chars()`. -/
def extract (text : String) : List String :=
  let c := clean text
  if c.utf8ByteSize < 3 then (if c = "" then [] else [c]) else ngrams c.data

end Trigram

/-! ### Claim C4 -/

/-- C4 counterexample: the short-text test of `Trigram::extract` counts UTF-8
bytes, not code points.  The normalised text `"ми"` has 2 code points but 4
bytes, so `extract` takes the n-gram branch and returns three n-grams instead
of the claimed one-element list. -/
theorem extract_codepoint_counterexample :
    Trigram.clean "ми" = "ми"
    ∧ (Trigram.clean "ми").length = 2
    ∧ Trigram.extract "ми" ≠ [Trigram.clean "ми"]
    ∧ Trigram.extract "ми" = ["м", "и", "ми"] := by
  decide

/-- C4 amended: the singleton case of `Trigram::extract` is keyed on the UTF-8
byte length of the normalised text, not its code-point count: for every text
whose normalised form is non-empty and shorter than 3 bytes, `extract` returns
exactly the one-element list holding that normalised string.  (A two-code-point
Cyrillic string is 4 bytes and goes down the n-gram path instead.) -/
theorem extract_short_singleton (text : String)
    (h1 : Trigram.clean text ≠ "") (h2 : (Trigram.clean text).utf8ByteSize < 3) :
    Trigram.extract text = [Trigram.clean text] := by
  unfold Trigram.extract
  rw [if_pos h2, if_neg h1]

/-- Witness for C4 as amended at the unit test's input `"HI"`. -/
theorem extract_short_singleton_witness :
    Trigram.extract "HI" = [Trigram.clean "HI"] ∧ Trigram.clean "HI" = "hi" :=
  ⟨extract_short_singleton "HI" (by decide) (by decide), by decide⟩

/-! ### Transaction filter (`src/access/transactions.rs`)

`Uuid` appears in the filter only through `uuid.to_string()` compared against
`Change.wallet_id`; the embedding carries the canonical string.  `after` and
`before` are carried as the `timestamp_millis` of the `DateTime` the source
converts them to.  The source type is named `Filter`; it is `TxFilter` here
because Mathlib already claims that name. -/

inductive WalletRef where
  | WholeWallet (uuid : String)
  | SelectedEntry (uuid : String) (index : Nat)
  deriving DecidableEq, Repr

inductive AddressRef where
  | SingleAddress (addr : String)
  | Xpub (xpub : String) (start n : Nat)
  deriving DecidableEq, Repr

structure TxFilter where
  wallet : Option WalletRef
  addresses : Option (List AddressRef)
  blockchains : Option (List Nat)
  after : Option Nat
  before : Option Nat
  deriving DecidableEq, Repr

namespace TxFilter

/-- transactions.rs lines 72-74. -/
def blockchains_ok (f : TxFilter) (t : Transaction) : Bool :=
  match f.blockchains with
  | some bs => bs.any (fun b => t.blockchain == b)
  | none => true

/-- transactions.rs lines 80-83. -/
def after_ok (f : TxFilter) (t : Transaction) : Bool :=
  match f.after with
  | some ts => (t.since_timestamp != 0 && decide (ts ≤ t.since_timestamp))
      || (t.confirm_timestamp != 0 && decide (ts ≤ t.confirm_timestamp))
  | none => true

/-- transactions.rs lines 84-87. -/
def before_ok (f : TxFilter) (t : Transaction) : Bool :=
  match f.before with
  | some ts => (t.since_timestamp != 0 && decide (t.since_timestamp ≤ ts))
      || (t.confirm_timestamp != 0 && decide (t.confirm_timestamp ≤ ts))
  | none => true

/-- transactions.rs lines 93-102. -/
def wallet_ok (f : TxFilter) (t : Transaction) : Bool :=
  match f.wallet with
  | some (.WholeWallet uuid) => t.changes.any (fun c => c.wallet_id == uuid)
  | some (.SelectedEntry uuid index) =>
      t.changes.any (fun c => c.wallet_id == uuid && c.entry_id == index)
  | none => true

/-- The `addresses.iter().any(..)` of transactions.rs lines 104-111: `any`
short-circuits left to right, and the `Xpub` arm is `todo!()` — reaching it
panics, modelled as `none`. -/
def addresses_any (t : Transaction) : List AddressRef → Option Bool
  | [] => some false
  | .SingleAddress addr :: rest =>
    if t.changes.any (fun c => c.address == addr) then some true
    else addresses_any t rest
  | .Xpub _ _ _ :: _ => none

def address_ok (f : TxFilter) (t : Transaction) : Option Bool :=
  match f.addresses with
  | some addrs => addresses_any t addrs
  | none => some true

/-- `Filter::check_filter` (transactions.rs lines 70-114): `some b` when the
source returns `b`, `none` when it reaches the `todo!()` panic. -/
def check_filter (f : TxFilter) (t : Transaction) : Option Bool :=
  if !(blockchains_ok f t) then some false
  else if !(after_ok f t && before_ok f t) then some false
  else
    match address_ok f t with
    | none => none
    | some aok => some (wallet_ok f t && aok)

end TxFilter

/-! ### Claim C7 -/

/-- A transaction whose `since_timestamp` (25) satisfies only the lower bound
10 and whose `confirm_timestamp` (5) satisfies only the upper bound 20. -/
def txSplitBounds : Transaction :=
  { blockchain := 100, tx_id := "0x01", state := 0, since_timestamp := 25,
    confirm_timestamp := 5, block_pos := 0, changes := [] }

/-- C7: with both `after` and `before` set, each bound is satisfied
independently (an OR over the two timestamp fields per bound): the time
condition of `check_filter` is exactly
`(since ≠ 0 ∧ since ≥ after ∨ confirm ≠ 0 ∧ confirm ≥ after) ∧
 (since ≠ 0 ∧ since ≤ before ∨ confirm ≠ 0 ∧ confirm ≤ before)`;
in particular a different field may satisfy each bound — at `txSplitBounds`
with bounds `[10, 20]` the filter passes though neither timestamp lies within
`[10, 20]`. -/
theorem check_filter_time_or_of_fields :
    (∀ (t : Transaction) (a b : Nat),
      TxFilter.check_filter ⟨none, none, none, some a, some b⟩ t
        = some (((t.since_timestamp != 0 && decide (a ≤ t.since_timestamp))
              || (t.confirm_timestamp != 0 && decide (a ≤ t.confirm_timestamp)))
            && ((t.since_timestamp != 0 && decide (t.since_timestamp ≤ b))
              || (t.confirm_timestamp != 0 && decide (t.confirm_timestamp ≤ b)))))
    ∧ TxFilter.check_filter ⟨none, none, none, some 10, some 20⟩ txSplitBounds = some true
    ∧ ¬ (10 ≤ txSplitBounds.since_timestamp ∧ txSplitBounds.since_timestamp ≤ 20)
    ∧ ¬ (10 ≤ txSplitBounds.confirm_timestamp ∧ txSplitBounds.confirm_timestamp ≤ 20) := by
  refine ⟨?_, by decide, by decide, by decide⟩
  intro t a b
  simp only [TxFilter.check_filter, TxFilter.blockchains_ok, TxFilter.after_ok,
    TxFilter.before_ok, TxFilter.wallet_ok, TxFilter.address_ok, Bool.not_true,
    Bool.false_eq_true, if_false, Bool.true_and]
  cases h : ((t.since_timestamp != 0 && decide (a ≤ t.since_timestamp))
        || (t.confirm_timestamp != 0 && decide (a ≤ t.confirm_timestamp)))
      && ((t.since_timestamp != 0 && decide (t.since_timestamp ≤ b))
        || (t.confirm_timestamp != 0 && decide (t.confirm_timestamp ≤ b))) with
  | true => simp [h]
  | false => simp [h]

/-! ### Error surface (`src/errors.rs`) -/

inductive InvalidValueError where
  | Name (field : String)
  | NameMessage (field message : String)
  | Other (message : String)
  deriving DecidableEq, Repr

inductive StateError where
  | IOError
  | InvalidId
  | InvalidValue (e : InvalidValueError)
  | CorruptedValue
  deriving DecidableEq, Repr

/-! ### Transaction metadata (`src/storage/transaction_store.rs`)

The real key is the string `txmeta:<blockchain>/<tx_id>`; the decimal
blockchain id cannot contain `/`, so the key determines and is determined by
the `(blockchain, tx_id)` pair, which the embedding uses directly.  The sled
tree is an association list; parsing stored bytes is the identity. -/

structure TransactionMeta where
  blockchain : Nat
  tx_id : String
  timestamp : Nat
  label : String
  raw : List Nat
  deriving DecidableEq, Repr

abbrev MetaStore := List ((Nat × String) × TransactionMeta)

/-- `TransactionsAccess::get_tx_meta` (transaction_store.rs lines 236-247) on
the association-list store. -/
def get_tx_meta (db : MetaStore) (blockchain : Nat) (txid : String) :
    Option TransactionMeta :=
  (db.find? (fun e => e.1 == (blockchain, txid))).map (fun e => e.2)

/-- A sled `insert`: replace the value under the key. -/
def metaInsert (db : MetaStore) (key : Nat × String) (v : TransactionMeta) :
    MetaStore :=
  db.filter (fun e => !(e.1 == key)) ++ [(key, v)]

/-- `TransactionsAccess::set_tx_meta` (transaction_store.rs lines 249-267):
the result the caller sees and the store afterwards. -/
def set_tx_meta (db : MetaStore) (value : TransactionMeta) :
    Except StateError TransactionMeta × MetaStore :=
  if value.tx_id = "" then
    (.error (.InvalidValue (.Name "tx_id")), db)
  else
    match get_tx_meta db value.blockchain value.tx_id with
    | some existing =>
      if value.timestamp ≤ existing.timestamp then (.ok existing, db)
      else (.ok value, metaInsert db (value.blockchain, value.tx_id) value)
    | none => (.ok value, metaInsert db (value.blockchain, value.tx_id) value)

/-! ### Claim C8 -/

/-- C8: `set_tx_meta` is last-writer-wins on strictly greater timestamps: when
a record `m` is stored under the incoming value's `(blockchain, tx_id)` and
the incoming timestamp is not greater, the call returns `Ok(m)` and the store
is unchanged; when the incoming timestamp is strictly greater, or no record
exists, the incoming value is written and returned.  (The non-empty `tx_id`
hypothesis reflects reachable stores: `set_tx_meta` is the only writer of
`txmeta:` keys and rejects empty transaction ids, so no stored record has
one.) -/
theorem set_tx_meta_last_writer_wins (db : MetaStore) (v m : TransactionMeta)
    (hid : v.tx_id ≠ "") :
    (get_tx_meta db v.blockchain v.tx_id = some m → v.timestamp ≤ m.timestamp →
      set_tx_meta db v = (.ok m, db))
    ∧ (get_tx_meta db v.blockchain v.tx_id = some m → m.timestamp < v.timestamp →
      set_tx_meta db v = (.ok v, metaInsert db (v.blockchain, v.tx_id) v))
    ∧ (get_tx_meta db v.blockchain v.tx_id = none →
      set_tx_meta db v = (.ok v, metaInsert db (v.blockchain, v.tx_id) v)) := by
  refine ⟨?_, ?_, ?_⟩
  · intro hget hts
    simp only [set_tx_meta, if_neg hid, hget, if_pos hts]
  · intro hget hts
    simp only [set_tx_meta, if_neg hid, hget, if_neg (show ¬ v.timestamp ≤ m.timestamp by omega)]
  · intro hget
    simp only [set_tx_meta, if_neg hid, hget]

def metaStored : TransactionMeta :=
  { blockchain := 100, tx_id := "0x2f", timestamp := 1647313100000,
    label := "test 1", raw := [] }

def metaStale : TransactionMeta :=
  { metaStored with timestamp := 1647313000000, label := "test 2" }

def metaDb : MetaStore := [((100, "0x2f"), metaStored)]

/-- Witness for C8 at a concrete store: a stale write returns the stored
record and leaves the store as it was. -/
theorem set_tx_meta_last_writer_wins_witness :
    set_tx_meta metaDb metaStale = (.ok metaStored, metaDb) :=
  (set_tx_meta_last_writer_wins metaDb metaStale metaStored (by decide)).1
    (by decide) (by decide)

/-! ### Claim C10 -/

/-- C10: `set_tx_meta` with an empty `tx_id` returns
`Err(InvalidValue(Name("tx_id")))` and leaves the store unchanged, for every
blockchain value and every prior store state. -/
theorem set_tx_meta_empty_txid_rejected (db : MetaStore) (v : TransactionMeta)
    (h : v.tx_id = "") :
    set_tx_meta db v = (.error (.InvalidValue (.Name "tx_id")), db) := by
  rw [set_tx_meta, if_pos h]

/-- Witness for C10 at a concrete store and metadata value. -/
theorem set_tx_meta_empty_txid_witness :
    set_tx_meta metaDb { metaStale with tx_id := "" }
      = (.error (.InvalidValue (.Name "tx_id")), metaDb) :=
  set_tx_meta_empty_txid_rejected metaDb { metaStale with tx_id := "" } (by decide)

/-! ### Address validation (`src/validate.rs`) -/

def isHexAsciiDigit (c : Char) : Bool :=
  (48 ≤ c.toNat && c.toNat ≤ 57) || (97 ≤ c.toNat && c.toNat ≤ 102)
    || (65 ≤ c.toNat && c.toNat ≤ 70)

/-- `check_ethereum_address` (validate.rs lines 9-15): the regex
`^0x[a-fA-F0-9]{40}$`, as a Bool. -/
def check_ethereum_address (address : String) : Bool :=
  match address.data with
  | '0' :: 'x' :: rest => rest.length == 40 && rest.all isHexAsciiDigit
  | _ => false

/-- `check_bitcoin_address` (validate.rs lines 17-23): `str::is_ascii`, as a
Bool. -/
def check_bitcoin_address (address : String) : Bool :=
  address.data.all (fun c => c.toNat < 128)

/-- `check_address` (validate.rs lines 25-34). -/
def check_address (address : String) : Except StateError Unit :=
  if check_ethereum_address address then .ok ()
  else if check_bitcoin_address address then .ok ()
  else .error (.InvalidValue (.NameMessage "address" "invalid"))

/-! ### Balance list (`src/access/balance.rs`, `src/storage/balance_store.rs`)

`Balance.amount` is a `BigUint`, embedded as `Nat`; `Utxo.amount` is a `u64`.
The proto round trip is the identity on fields, except that reading applies
`Balance::validated` to each entry (`TryFrom<&proto_Balance>`, balance.rs line
102); amounts always re-parse because they are written as the decimal of the
stored `BigUint`. -/

structure Utxo where
  txid : String
  vout : Nat
  amount : Nat
  deriving DecidableEq, Repr

structure Balance where
  amount : Nat
  ts : Nat
  address : String
  blockchain : Nat
  asset : String
  utxo : List Utxo
  deriving DecidableEq, Repr

/-- `Balance::validated` (balance.rs lines 44-58): clear the UTXO list when
its (u64, hence wrapping) sum disagrees with the total amount. -/
def Balance.validated (self : Balance) : Balance :=
  if self.utxo.isEmpty then self
  else if (self.utxo.map (fun u => u.amount)).sum % 2 ^ 64 = self.amount then self
  else { self with utxo := [] }

/-- `concat` (balance.rs lines 61-70): keep every entry of `base` whose
(blockchain, asset) differs from the incoming entry's, then append it. -/
def concat (base : List Balance) (extra : Balance) : List Balance :=
  base.filter (fun b => b.blockchain != extra.blockchain || b.asset != extra.asset)
    ++ [extra]

/-- `BalanceAccess::convert_stored` (balance_store.rs lines 21-26): parse the
stored bundle; each entry is validated on the way in. -/
def convert_stored (base : List Balance) : List Balance :=
  base.map Balance.validated

/-- `BalanceAccess::set` (balance_store.rs lines 47-62), restricted to the one
key the call touches: `stored` is what the tree holds under
`balance:<address>` (`none` when absent), the result is what it holds after. -/
def balance_set (stored : Option (List Balance)) (value : Balance) :
    Except StateError (List Balance) :=
  match check_address value.address with
  | .error e => .error e
  | .ok _ =>
    .ok (match stored with
      | some base => concat (convert_stored base) value
      | none => [value])

/-! ### Claim C9 -/

deriving instance DecidableEq for Except

def utxoBtc : Balance :=
  { amount := 2, ts := 0, address := "12cbQLTFMXRnSzktFkuoG3eHoMeFtpTu3S",
    blockchain := 1, asset := "BTC", utxo := [{ txid := "01ff", vout := 1, amount := 1 }] }

def balEth : Balance :=
  { amount := 5, ts := 0, address := "12cbQLTFMXRnSzktFkuoG3eHoMeFtpTu3S",
    blockchain := 100, asset := "ETHER", utxo := [] }

/-- C9 counterexample: an entry with a different (blockchain, asset) pair is
not always left unchanged.  The stored entry here is UTXO-inconsistent (UTXO
sum 1 ≠ amount 2); writing a balance for a different pair re-reads the list
through `convert_stored`, which clears that entry's UTXOs, so the prior entry
comes out field-changed. -/
theorem balance_set_normalises_counterexample :
    balance_set (some [utxoBtc]) balEth
      = .ok [{ utxoBtc with utxo := [] }, balEth]
    ∧ ({ utxoBtc with utxo := ([] : List Utxo) } ≠ utxoBtc)
    ∧ (utxoBtc.blockchain ≠ balEth.blockchain ∨ utxoBtc.asset ≠ balEth.asset) := by
  refine ⟨by decide, by decide, by decide⟩

/-- C9 amended: for every stored list whose entries are UTXO-consistent (each
fixed by `validated`, i.e. UTXOs empty or summing to the amount — which is all
`set` itself can leave behind only when writers store consistent UTXOs),
`set` stores exactly the prior entries whose (blockchain, asset) differs from
the incoming balance, unchanged and in order, with the incoming balance
appended; a UTXO-inconsistent prior entry is kept too, but normalised by the
read-side UTXO check (its UTXO list cleared), as on any read. -/
theorem balance_set_replaces_pair (stored : List Balance) (v : Balance)
    (haddr : check_address v.address = .ok ())
    (hcons : ∀ b ∈ stored, b.validated = b) :
    balance_set (some stored) v
      = .ok (stored.filter
          (fun b => b.blockchain != v.blockchain || b.asset != v.asset) ++ [v]) := by
  have hconv : convert_stored stored = stored := by
    calc convert_stored stored = stored.map id := List.map_congr_left hcons
      _ = stored := List.map_id _
  simp only [balance_set, haddr, concat, hconv]

/-- Witness for C9 as amended: two consistent stored entries on the same
blockchain, one replaced by pair and one preserved. -/
theorem balance_set_replaces_pair_witness :
    balance_set (some [{ utxoBtc with utxo := [] }, balEth])
        { balEth with amount := 7 }
      = .ok ([{ utxoBtc with utxo := [] }, balEth].filter
          (fun b => b.blockchain != ({ balEth with amount := 7 } : Balance).blockchain
            || b.asset != ({ balEth with amount := 7 } : Balance).asset)
          ++ [{ balEth with amount := 7 }]) :=
  balance_set_replaces_pair [{ utxoBtc with utxo := [] }, balEth]
    { balEth with amount := 7 } (by decide) (by decide)

/-! ### Address book (`src/access/addressbook.rs`, `src/storage/adressbook_store.rs`)

External crates appear as oracle parameters: `uuid::Uuid::parse_str` (is the
string a UUID), `bitcoin::Address::from_str` (does it decode), and
`emerald_vault`'s `XPub::from_str` with its `address_type`.  The primary tree
is an association list keyed by the item id (the real key is
`"addrbook" ++ id`, injective in the id); index and backref entries hold no
items and are outside the stored-item invariant. -/

inductive Address_AddressType where
  | PLAIN
  | XPUB
  deriving DecidableEq, Repr

structure Address where
  address : String
  field_type : Address_AddressType
  deriving DecidableEq, Repr

structure BookItem where
  id : String
  blockchain : Nat
  label : String
  create_timestamp : Nat
  update_timestamp : Nat
  address : Option Address
  deriving DecidableEq, Repr

/-- `emerald_vault::blockchain::bitcoin::AddressType`: the derivation types an
XPub can carry; `P2SH` and `P2TR` stand for the unsupported ones. -/
inductive XpubType where
  | P2PKH
  | P2SH
  | P2WPKH
  | P2WPKHinP2SH
  | P2TR
  deriving DecidableEq, Repr

/-- The external decoders consumed by the address book (spec section 6). -/
structure ExtOracles where
  is_uuid : String → Bool
  btc_address_ok : String → Bool
  xpub_type : String → Option XpubType

/-- Modelled from the spec: the generated `BlockchainId` enum of
`transactions.proto` is not among the source files, so
`BlockchainId::from_i32` is modelled from the spec's glossary ("1 = Bitcoin
mainnet") and the unit tests (`CHAIN_ETHEREUM.value()` is 100 in
`set_and_get_tx_meta`; the address-book tests validate Ethereum-shape
addresses under 101 and Bitcoin addresses under 1); 10003 is
`CHAIN_TESTNET_BITCOIN` in the emerald convention.  `from_i32` succeeds
exactly on the enum's values. -/
def known_blockchain (b : Nat) : Bool :=
  b == 1 || b == 100 || b == 101 || b == 10003

/-- The `CHAIN_BITCOIN | CHAIN_TESTNET_BITCOIN` arm of `Address::validate`. -/
def bitcoin_blockchain (b : Nat) : Bool :=
  b == 1 || b == 10003

/-- `Address::validate` (addressbook.rs lines 114-148).  For PLAIN on a
Bitcoin chain the external decoder decides; for PLAIN elsewhere the repository
code itself checks `0x` + exactly 40 hex characters over a 42-byte string; for
XPUB only the three supported derivation types pass.  (Error message texts are
fixed strings here; the source formats the unsupported type into its
message.) -/
def Address.validate (o : ExtOracles) (self : Address) (blockchain : Nat) :
    Except InvalidValueError Unit :=
  match self.field_type with
  | .PLAIN =>
    if bitcoin_blockchain blockchain then
      if o.btc_address_ok self.address then .ok ()
      else .error (.Other "Invalid address")
    else
      if !(self.address.utf8ByteSize == 42 && self.address.data.take 2 == ['0', 'x']) then
        .error (.Other "Invalid address")
      else if !((self.address.data.drop 2).all isHexAsciiDigit) then
        .error (.Other "Invalid address")
      else .ok ()
  | .XPUB =>
    match o.xpub_type self.address with
    | none => .error (.Other "Not an XPub address")
    | some t =>
      if t == .P2WPKH || t == .P2PKH || t == .P2WPKHinP2SH then .ok ()
      else .error (.NameMessage "xpub" "Unsupported address format")

/-- `BookItem::validate` (addressbook.rs lines 98-109). -/
def BookItem.validate (o : ExtOracles) (self : BookItem) :
    Except InvalidValueError Unit :=
  if !(o.is_uuid self.id) then .error (.Name "id")
  else if !(known_blockchain self.blockchain) then .error (.Name "blockchain")
  else
    match self.address with
    | some a => a.validate o self.blockchain
    | none => .error (.NameMessage "address" "Address is empty")

/-- `BookItem::preprocess` (addressbook.rs lines 60-85), with the fresh random
UUID and the current time passed explicitly. -/
def BookItem.preprocess (o : ExtOracles) (fresh_id : String) (now : Nat)
    (self : BookItem) : BookItem :=
  let copy := if o.is_uuid self.id then self else { self with id := fresh_id }
  let copy := if copy.create_timestamp == 0 then
    { copy with create_timestamp := now } else copy
  let copy := if copy.update_timestamp == 0 then
    { copy with update_timestamp := now } else copy
  match copy.address with
  | some a =>
    if (o.xpub_type a.address).isSome then
      { copy with address := some { a with field_type := .XPUB } }
    else copy
  | none => copy

abbrev BookStore := List (String × BookItem)

/-- The primary write of `add_item` (adressbook_store.rs lines 162-177): a
sled insert under `addrbook<uuid>` — replace the value under the id. -/
def book_insert (st : BookStore) (b : BookItem) : BookStore :=
  st.filter (fun e => !(e.1 == b.id)) ++ [(b.id, b)]

/-- The preprocess loop of `add` (adressbook_store.rs lines 183-186), with one
fresh id per item (missing fresh ids default to `""`; a non-UUID fresh id only
makes validation fail, which rejects the batch). -/
def preprocess_all (o : ExtOracles) (now : Nat) :
    List BookItem → List String → List BookItem
  | [], _ => []
  | b :: bs, [] => b.preprocess o "" now :: preprocess_all o now bs []
  | b :: bs, f :: fs => b.preprocess o f now :: preprocess_all o now bs fs

/-- The validation loop of `add` (adressbook_store.rs lines 189-191): first
error rejects the whole batch. -/
def validate_all (o : ExtOracles) : List BookItem → Except InvalidValueError Unit
  | [] => .ok ()
  | b :: bs =>
    match b.validate o with
    | .error e => .error e
    | .ok _ => validate_all o bs

/-- `AddressBookAccess::add` (adressbook_store.rs lines 181-204): preprocess
every item, validate every item (any failure rejects the batch with no write),
then apply all inserts atomically. -/
def addressbook_add (o : ExtOracles) (st : BookStore) (items : List BookItem)
    (fresh_ids : List String) (now : Nat) : Except InvalidValueError BookStore :=
  let pre := preprocess_all o now items fresh_ids
  match validate_all o pre with
  | .error e => .error e
  | .ok _ => .ok (pre.foldl book_insert st)

/-- `AddressBookAccess::update` (adressbook_store.rs lines 282-297): remove
the old primary, set `update_timestamp := now` and the id, and re-add through
`add_item` — with no call to `preprocess` or `validate`. -/
def addressbook_update (st : BookStore) (id : String) (update : BookItem)
    (now : Nat) : BookStore :=
  book_insert (st.filter (fun e => !(e.1 == id)))
    { update with update_timestamp := now, id := id }

/-- `AddressBookAccess::remove` (adressbook_store.rs lines 220-227). -/
def addressbook_remove (st : BookStore) (id : String) : BookStore :=
  st.filter (fun e => !(e.1 == id))

/-- One public address-book call.  `update`'s first argument stands for
`uuid.to_string()` of the `Uuid` parameter. -/
inductive BookOp where
  | add (items : List BookItem) (fresh_ids : List String) (now : Nat)
  | update (id : String) (item : BookItem) (now : Nat)
  | remove (id : String)

def BookOp.is_update : BookOp → Bool
  | .update _ _ _ => true
  | _ => false

/-- Run one call against the store (a failed `add` writes nothing). -/
def apply_book_op (o : ExtOracles) (st : BookStore) : BookOp → BookStore
  | .add items fresh_ids now =>
    match addressbook_add o st items fresh_ids now with
    | .ok st' => st'
    | .error _ => st
  | .update id item now => addressbook_update st id item now
  | .remove id => addressbook_remove st id

def apply_book_ops (o : ExtOracles) (st : BookStore) (ops : List BookOp) : BookStore :=
  ops.foldl (apply_book_op o) st

def validate_passes (o : ExtOracles) (b : BookItem) : Bool :=
  match b.validate o with
  | .ok _ => true
  | .error _ => false

/-- The claimed invariant: every stored item passes `BookItem::validate`
(UUID id, recognised blockchain, validated address). -/
def store_valid (o : ExtOracles) (st : BookStore) : Bool :=
  st.all (fun e => validate_passes o e.2)

/-! ### Claim C5 -/

theorem store_valid_mem {o : ExtOracles} {st : BookStore}
    (h : store_valid o st = true) :
    ∀ e ∈ st, validate_passes o e.2 = true := by
  intro e he
  exact List.all_eq_true.mp h e he

theorem store_valid_of_mem {o : ExtOracles} {st : BookStore}
    (h : ∀ e ∈ st, validate_passes o e.2 = true) :
    store_valid o st = true :=
  List.all_eq_true.mpr h

theorem store_valid_filter {o : ExtOracles} {st : BookStore}
    (p : String × BookItem → Bool) (h : store_valid o st = true) :
    store_valid o (st.filter p) = true :=
  store_valid_of_mem fun e he => store_valid_mem h e (List.mem_of_mem_filter he)

theorem store_valid_insert {o : ExtOracles} {st : BookStore} {b : BookItem}
    (h : store_valid o st = true) (hb : validate_passes o b = true) :
    store_valid o (book_insert st b) = true := by
  apply store_valid_of_mem
  intro e he
  rcases List.mem_append.mp he with he | he
  · exact store_valid_mem (store_valid_filter _ h) e he
  · simp only [List.mem_singleton] at he
    subst he
    exact hb

theorem validate_all_ok {o : ExtOracles} {l : List BookItem}
    (h : validate_all o l = .ok ()) : ∀ b ∈ l, validate_passes o b = true := by
  induction l with
  | nil => intro b hb; simp at hb
  | cons x xs ih =>
    intro b hb
    unfold validate_all at h
    cases hval : x.validate o with
    | error e => rw [hval] at h; exact absurd h (by simp)
    | ok u =>
      rw [hval] at h
      rcases List.mem_cons.mp hb with rfl | hb
      · simp [validate_passes, hval]
      · exact ih h b hb

theorem store_valid_foldl {o : ExtOracles} {l : List BookItem} {st : BookStore}
    (hl : ∀ b ∈ l, validate_passes o b = true) (hst : store_valid o st = true) :
    store_valid o (l.foldl book_insert st) = true := by
  induction l generalizing st with
  | nil => exact hst
  | cons x xs ih =>
    exact ih (fun b hb => hl b (List.mem_cons_of_mem _ hb))
      (store_valid_insert hst (hl x (List.mem_cons_self _ _)))

/-- C5 amended: the invariant — every stored address-book item passes
`BookItem::validate` (UUID id, recognised blockchain, validated address) — is
preserved by every sequence of the public `add` and `remove` operations, from
any state satisfying it; `update` is excluded, because it writes the caller's
item without running `preprocess` or `validate` (it can store an unrecognised
blockchain or invalid address, as the counterexample shows; the id it writes
is still the given UUID). -/
theorem addressbook_add_remove_preserve_validity (o : ExtOracles)
    (st : BookStore) (ops : List BookOp)
    (hops : ∀ op ∈ ops, op.is_update = false)
    (hst : store_valid o st = true) :
    store_valid o (apply_book_ops o st ops) = true := by
  induction ops generalizing st with
  | nil => exact hst
  | cons op rest ih =>
    show store_valid o (apply_book_ops o (apply_book_op o st op) rest) = true
    refine ih _ (fun x hx => hops x (List.mem_cons_of_mem _ hx)) ?_
    cases op with
    | add items fresh_ids now =>
      show store_valid o
        (match addressbook_add o st items fresh_ids now with
          | .ok st' => st'
          | .error _ => st) = true
      unfold addressbook_add
      cases hval : validate_all o (preprocess_all o now items fresh_ids) with
      | error e => simpa [hval] using hst
      | ok u =>
        cases u
        simpa [hval] using store_valid_foldl (validate_all_ok hval) hst
    | update id item now =>
      have := hops _ (List.mem_cons_self _ _)
      simp [BookOp.is_update] at this
    | remove id => exact store_valid_filter _ hst

/-- Canonical hyphenated UUID shape (spec section 3): 36 characters with
hyphens at positions 8, 13, 18 and 23 and hex digits elsewhere. -/
def uuid_shape (s : String) : Bool :=
  s.data.length == 36 &&
    (List.range 36).all (fun i =>
      if i == 8 || i == 13 || i == 18 || i == 23 then s.data.getD i ' ' == '-'
      else isHexAsciiDigit (s.data.getD i ' '))

/-- A concrete oracle instance: canonical UUIDs, no Bitcoin address decodes,
no string parses as an XPub.  The items fed through it below are decided by
the repository's own Ethereum-branch checks, not the oracles. -/
def sampleOracles : ExtOracles :=
  { is_uuid := uuid_shape, btc_address_ok := fun _ => false,
    xpub_type := fun _ => none }

def goodUuidStr : String := "989d7648-13e3-4cb9-acfb-85464f063b34"

def badBookItem : BookItem :=
  { id := "", blockchain := 101, label := "broken", create_timestamp := 1,
    update_timestamp := 1,
    address := some { address := "not-an-address", field_type := .PLAIN } }

/-- C5 counterexample: one `update` call against the empty (trivially valid)
store leaves a stored item whose address fails the section-4.E rules —
`update` validates nothing, so the store-wide invariant does not survive every
sequence of add/update/remove. -/
theorem addressbook_update_counterexample :
    store_valid sampleOracles [] = true
    ∧ apply_book_ops sampleOracles [] [.update goodUuidStr badBookItem 5]
        = [(goodUuidStr, { badBookItem with update_timestamp := 5, id := goodUuidStr })]
    ∧ store_valid sampleOracles
        (apply_book_ops sampleOracles [] [.update goodUuidStr badBookItem 5]) = false := by
  refine ⟨rfl, by decide, by decide⟩

def goodBookItem : BookItem :=
  { id := goodUuidStr, blockchain := 100, label := "ok", create_timestamp := 1,
    update_timestamp := 1,
    address := some { address := "0xEdD91797204D3537fBaBDe0E0E42AaE99975f2Bb", field_type := .PLAIN } }

/-- Witness for C5 as amended: a concrete add-then-remove run from the empty
store ends in a valid store. -/
theorem addressbook_invariant_witness :
    store_valid sampleOracles (apply_book_ops sampleOracles []
      [.add [goodBookItem] [] 7, .remove "zzz"]) = true :=
  addressbook_add_remove_preserve_validity sampleOracles []
    [.add [goodBookItem] [] 7, .remove "zzz"] (by decide) rfl
